import Mathlib

/-!
Shallow embedding of the filter-expression-to-SQL compiler
(`addFilterExpressionToQuery` from the postgres storage backend) and proofs
of the specified properties.
-/

/-- Modelled from the spec: the fixed schema name used to qualify column
references.  The constant is defined outside the given source files; it is
fixed configuration, and no property below depends on its concrete value. -/
def schemaName : String := "pomerium"

/-- Modelled from the spec: the fixed records-table name used to qualify
column references; fixed configuration owned by the storage engine. -/
def recordsTableName : String := "records"

/-- Model of Go `strings.Join`: concatenates the elements with the separator
placed between consecutive elements. -/
def stringsJoin (sep : String) : List String → String
  | [] => ""
  | [a] => a
  | a :: b :: rest => a ++ sep ++ stringsJoin sep (b :: rest)

/-- Decimal digit characters of a natural number, most significant first,
computed with explicit fuel so that the recursion is structural; the fuel
`n + 1` used below always suffices. -/
def decimalDigitsAux : Nat → Nat → List Char
  | 0, _ => []
  | fuel + 1, n =>
    if n < 10 then [Nat.digitChar n]
    else decimalDigitsAux fuel (n / 10) ++ [Nat.digitChar (n % 10)]

/-- Decimal digit characters of a natural number, most significant first;
models the rendering of the `%d` verb. -/
def decimalDigits (n : Nat) : List Char := decimalDigitsAux (n + 1) n

/-- Decimal string of a natural number. -/
def natDecimal (n : Nat) : String := String.mk (decimalDigits n)

/-- Model of `fmt.Sprintf` applied to a dollar sign followed by the `%d`
verb: the positional-placeholder text. -/
def sprintfDollar (n : Nat) : String := "$" ++ natDecimal n

/-- The filter-expression tree.  `and`/`or` carry the ordered children,
`equals` carries the field path and the (opaque, here string-valued)
comparison value.  `other` stands for a value of the interface type outside
the three known variants; it carries the `%T` type discriminant. -/
inductive FilterExpression where
  | and (subexprs : List FilterExpression)
  | or (subexprs : List FilterExpression)
  | equals (fields : List String) (value : String)
  | other (typeName : String)

/-- Compilation errors: the unsupported-equals-filter error carries the
offending field path (`%v` of the fields), the unsupported-filter-expression
error carries the variant discriminant (`%T` of the value). -/
inductive CompileError where
  | unsupportedEqualsFilter (fields : List String)
  | unsupportedFilterExpression (typeName : String)
deriving DecidableEq

mutual

/-- Shallow embedding of `addFilterExpressionToQuery`: the two by-reference
accumulators (`*query`, `*args`) are passed and returned explicitly, and the
error result, when present, is returned together with the accumulator state
at the moment of the early return.  The body of the `compoundExpression`
closure (append the opening parenthesis, run the loop, append the closing
parenthesis on success) is inlined into the two compound branches; the
separate definition `compoundExpression` below packages it again. -/
def addFilterExpressionToQuery (query : String) (args : List String) :
    FilterExpression → String × List String × Option CompileError
  | .and subexprs =>
    (match compoundLoop (query ++ "( ") args subexprs "AND" 0 with
     | (q, a, some err) => (q, a, some err)
     | (q, a, none) => (q ++ " )", a, none))
  | .or subexprs =>
    (match compoundLoop (query ++ "( ") args subexprs "OR" 0 with
     | (q, a, some err) => (q, a, some err)
     | (q, a, none) => (q ++ " )", a, none))
  | .equals fields value =>
    let key := stringsJoin "." fields
    if key = "type" then
      (query ++ schemaName ++ "." ++ recordsTableName ++ ".type = " ++
        sprintfDollar (args.length + 1), args ++ [value], none)
    else if key = "id" then
      (query ++ schemaName ++ "." ++ recordsTableName ++ ".id = " ++
        sprintfDollar (args.length + 1), args ++ [value], none)
    else if key = "$index" then
      (query ++ schemaName ++ "." ++ recordsTableName ++ ".index_cidr >>= " ++
        sprintfDollar (args.length + 1), args ++ [value], none)
    else
      (query, args, some (CompileError.unsupportedEqualsFilter fields))
  | .other typeName => (query, args, some (CompileError.unsupportedFilterExpression typeName))
termination_by structural e => e

/-- The range loop inside the `compoundExpression` closure: `i` is the index
of the current child; for `i > 0` the operator keyword surrounded by single
spaces is appended before the child is compiled; the first error aborts the
loop. -/
def compoundLoop (query : String) (args : List String)
    (subexprs : List FilterExpression) (op : String) (i : Nat) :
    String × List String × Option CompileError :=
  match subexprs with
  | [] => (query, args, none)
  | subexpr :: rest =>
    let query1 := if i > 0 then query ++ " " ++ op ++ " " else query
    match addFilterExpressionToQuery query1 args subexpr with
    | (q, a, some err) => (q, a, some err)
    | (q, a, none) => compoundLoop q a rest op (i + 1)
termination_by structural subexprs

end

/-- The `compoundExpression` closure: appends the opening parenthesis, runs
the loop over the children, and on success appends the closing parenthesis
(on failure the error and the accumulated state are returned as they
stand). -/
def compoundExpression (query : String) (args : List String)
    (subexprs : List FilterExpression) (op : String) :
    String × List String × Option CompileError :=
  match compoundLoop (query ++ "( ") args subexprs op 0 with
  | (q, a, some err) => (q, a, some err)
  | (q, a, none) => (q ++ " )", a, none)

/-- The `and` branch of the compiler is exactly the `compoundExpression`
closure applied with the `AND` keyword. -/
theorem addFilter_and_eq (query : String) (args : List String)
    (subexprs : List FilterExpression) :
    addFilterExpressionToQuery query args (.and subexprs) =
      compoundExpression query args subexprs "AND" := rfl

/-- The `or` branch of the compiler is exactly the `compoundExpression`
closure applied with the `OR` keyword. -/
theorem addFilter_or_eq (query : String) (args : List String)
    (subexprs : List FilterExpression) :
    addFilterExpressionToQuery query args (.or subexprs) =
      compoundExpression query args subexprs "OR" := rfl

/-- Numeric value of a decimal digit character. -/
def digitVal (c : Char) : Nat := c.toNat - 48

/-- Decimal reading of a digit list, with accumulator. -/
def parseAccum (m : Nat) (ds : List Char) : Nat :=
  ds.foldl (fun a c => 10 * a + digitVal c) m

/-- Decimal reading of a digit list. -/
def parseNat (ds : List Char) : Nat := parseAccum 0 ds

/-- State of the placeholder scanner: outside any placeholder, right after a
dollar sign with no digit read yet, or inside the digit run with the value
read so far. -/
inductive ScanState where
  | outside
  | afterDollar
  | inNumber (n : Nat)

/-- Placeholder scanner: collects, left to right, the decimal value of each
maximal digit run that immediately follows a dollar sign. -/
def scanAux : ScanState → List Char → List Nat
  | .outside, [] => []
  | .afterDollar, [] => []
  | .inNumber n, [] => [n]
  | .outside, c :: cs =>
    if c = '$' then scanAux .afterDollar cs else scanAux .outside cs
  | .afterDollar, c :: cs =>
    if c.isDigit then scanAux (.inNumber (digitVal c)) cs
    else if c = '$' then scanAux .afterDollar cs
    else scanAux .outside cs
  | .inNumber n, c :: cs =>
    if c.isDigit then scanAux (.inNumber (10 * n + digitVal c)) cs
    else if c = '$' then n :: scanAux .afterDollar cs
    else n :: scanAux .outside cs

/-- The positional-placeholder indices occurring in a string, in order of
occurrence. -/
def placeholderIndices (s : String) : List Nat := scanAux .outside s.data

mutual

/-- Pre-order (depth-first) list of the nodes of a tree. -/
def preorderNodes : FilterExpression → List FilterExpression
  | .and l => .and l :: preorderNodesList l
  | .or l => .or l :: preorderNodesList l
  | .equals fields v => [.equals fields v]
  | .other t => [.other t]
termination_by structural e => e

/-- Pre-order node list of a forest, left to right. -/
def preorderNodesList : List FilterExpression → List FilterExpression
  | [] => []
  | e :: rest => preorderNodes e ++ preorderNodesList rest
termination_by structural l => l

end

mutual

/-- Values of the equals nodes of a tree in pre-order (depth-first,
left-to-right) traversal order. -/
def preorderValues : FilterExpression → List String
  | .and l => preorderValuesList l
  | .or l => preorderValuesList l
  | .equals _ v => [v]
  | .other _ => []
termination_by structural e => e

/-- Equals-node values of a forest in pre-order traversal order. -/
def preorderValuesList : List FilterExpression → List String
  | [] => []
  | e :: rest => preorderValues e ++ preorderValuesList rest
termination_by structural l => l

end

/-- The error a single node triggers at the moment the compiler reaches it,
if any; mirrors the leaf branches of the compiler (the three supported keys
and the two error forms). -/
def nodeError : FilterExpression → Option CompileError
  | .equals fields _ =>
    let key := stringsJoin "." fields
    if key = "type" then none
    else if key = "id" then none
    else if key = "$index" then none
    else some (CompileError.unsupportedEqualsFilter fields)
  | .other t => some (CompileError.unsupportedFilterExpression t)
  | .and _ => none
  | .or _ => none

/-- The first error triggered in a depth-first traversal of a tree, if
any. -/
def firstNodeError (e : FilterExpression) : Option CompileError :=
  ((preorderNodes e).filterMap nodeError).head?

/-- The first error triggered in a depth-first traversal of a forest, if
any. -/
def firstNodeErrorList (l : List FilterExpression) : Option CompileError :=
  ((preorderNodesList l).filterMap nodeError).head?

/-- Whether the tree contains an equals node whose joined field path is not
one of the supported keys. -/
def hasUnsupportedEqualsField (e : FilterExpression) : Bool :=
  (preorderNodes e).any fun n =>
    match nodeError n with
    | some (CompileError.unsupportedEqualsFilter _) => true
    | _ => false

/-- Whether the tree contains a node outside the three known variants. -/
def hasOtherNode (e : FilterExpression) : Bool :=
  (preorderNodes e).any fun n =>
    match n with
    | .other _ => true
    | _ => false

/-- The fragments of a list of children, each compiled from an empty query
at the parameter state reached after its left siblings. -/
def childFragments (args : List String) : List FilterExpression → List String
  | [] => []
  | e :: rest =>
    (addFilterExpressionToQuery "" args e).1 ::
      childFragments (addFilterExpressionToQuery "" args e).2.1 rest

/-- Induction principle for the nested inductive tree: the compound cases
receive the induction hypothesis for every member of the child list. -/
theorem FilterExpression.recMem {P : FilterExpression → Prop}
    (hand : ∀ l, (∀ e ∈ l, P e) → P (.and l))
    (hor : ∀ l, (∀ e ∈ l, P e) → P (.or l))
    (heq : ∀ fields v, P (.equals fields v))
    (hother : ∀ t, P (.other t)) : ∀ e, P e
  | .and l => hand l fun x hx => FilterExpression.recMem hand hor heq hother x
  | .or l => hor l fun x hx => FilterExpression.recMem hand hor heq hother x
  | .equals fields v => heq fields v
  | .other t => hother t
termination_by e => sizeOf e
decreasing_by
  all_goals simp only [FilterExpression.and.sizeOf_spec, FilterExpression.or.sizeOf_spec]
  all_goals have := List.sizeOf_lt_of_mem hx
  all_goals omega

/-- Statement of the rebase property for a single tree: the compiler only
appends to the query, the appended text and the other two components do not
depend on the incoming query. -/
def RebaseP (e : FilterExpression) : Prop :=
  ∀ q a, addFilterExpressionToQuery q a e =
    (q ++ (addFilterExpressionToQuery "" a e).1, (addFilterExpressionToQuery "" a e).2)

/-- Rebase property for the child loop, assuming it for every child. -/
theorem compoundLoop_rebase (l : List FilterExpression)
    (ih : ∀ e ∈ l, RebaseP e) :
    ∀ q a op i, compoundLoop q a l op i =
      (q ++ (compoundLoop "" a l op i).1, (compoundLoop "" a l op i).2) := by
  induction l with
  | nil => intro q a op i; simp [compoundLoop]
  | cons e rest IH =>
    intro q a op i
    have ihe : RebaseP e := ih e (List.mem_cons_self e rest)
    have ihr := IH (fun x hx => ih x (List.mem_cons_of_mem e hx))
    rcases h1 : addFilterExpressionToQuery "" a e with ⟨f1, a1, err1⟩
    by_cases hi : i > 0
    · simp only [compoundLoop, if_pos hi]
      rw [ihe (q ++ " " ++ op ++ " ") a, ihe ("" ++ " " ++ op ++ " ") a, h1]
      cases err1 with
      | some err => simp [String.append_assoc]
      | none =>
        simp only
        rw [ihr (q ++ " " ++ op ++ " " ++ f1) a1 op (i + 1),
          ihr ("" ++ " " ++ op ++ " " ++ f1) a1 op (i + 1)]
        simp [String.append_assoc]
    · simp only [compoundLoop, if_neg hi]
      rw [ihe q a, ihe "" a, h1]
      cases err1 with
      | some err => simp [String.append_assoc]
      | none =>
        simp only [String.empty_append]
        rw [ihr (q ++ f1) a1 op (i + 1), ihr f1 a1 op (i + 1)]
        simp [String.append_assoc]

/-- The compiler only appends to the incoming query; the appended text, the
resulting parameter list and the error do not depend on the incoming
query. -/
theorem addFilter_rebase : ∀ e : FilterExpression, RebaseP e := by
  intro e
  induction e using FilterExpression.recMem with
  | hand l ih =>
    intro q a
    rcases hL : compoundLoop "" a l "AND" 0 with ⟨L, A, E⟩
    have hq : compoundLoop (q ++ "( ") a l "AND" 0 = (q ++ "( " ++ L, A, E) := by
      rw [compoundLoop_rebase l ih, hL]
    have h0 : compoundLoop "( " a l "AND" 0 = ("( " ++ L, A, E) := by
      rw [compoundLoop_rebase l ih, hL]
    simp only [addFilterExpressionToQuery, String.empty_append, hq, h0]
    cases E <;> simp [String.append_assoc]
  | hor l ih =>
    intro q a
    rcases hL : compoundLoop "" a l "OR" 0 with ⟨L, A, E⟩
    have hq : compoundLoop (q ++ "( ") a l "OR" 0 = (q ++ "( " ++ L, A, E) := by
      rw [compoundLoop_rebase l ih, hL]
    have h0 : compoundLoop "( " a l "OR" 0 = ("( " ++ L, A, E) := by
      rw [compoundLoop_rebase l ih, hL]
    simp only [addFilterExpressionToQuery, String.empty_append, hq, h0]
    cases E <;> simp [String.append_assoc]
  | heq fields v =>
    intro q a
    simp only [addFilterExpressionToQuery, String.empty_append]
    split_ifs <;> simp [String.append_assoc]
  | hother t => intro q a; simp [addFilterExpressionToQuery]

/-- The child loop only appends to the parameter list. -/
theorem compoundLoop_args_extend (l : List FilterExpression)
    (ih : ∀ e ∈ l, ∀ q a, ∃ p, (addFilterExpressionToQuery q a e).2.1 = a ++ p) :
    ∀ q a op i, ∃ p, (compoundLoop q a l op i).2.1 = a ++ p := by
  induction l with
  | nil => intro q a op i; exact ⟨[], by simp [compoundLoop]⟩
  | cons e rest IH =>
    intro q a op i
    rcases h1 : addFilterExpressionToQuery (if i > 0 then q ++ " " ++ op ++ " " else q) a e
      with ⟨f1, a1, err1⟩
    obtain ⟨p1, hp1⟩ := ih e (List.mem_cons_self e rest)
      (if i > 0 then q ++ " " ++ op ++ " " else q) a
    rw [h1] at hp1
    simp only at hp1
    cases err1 with
    | some err =>
      refine ⟨p1, ?_⟩
      simp only [compoundLoop, h1]
      exact hp1
    | none =>
      obtain ⟨p2, hp2⟩ := IH (fun x hx => ih x (List.mem_cons_of_mem e hx)) f1 a1 op (i + 1)
      refine ⟨p1 ++ p2, ?_⟩
      simp only [compoundLoop, h1]
      rw [hp2, hp1, List.append_assoc]

/-- The compiler only appends to the parameter list. -/
theorem addFilter_args_extend :
    ∀ (e : FilterExpression) (q : String) (a : List String),
      ∃ p, (addFilterExpressionToQuery q a e).2.1 = a ++ p := by
  intro e
  induction e using FilterExpression.recMem with
  | hand l ih =>
    intro q a
    obtain ⟨p, hp⟩ := compoundLoop_args_extend l ih (q ++ "( ") a "AND" 0
    rcases hL : compoundLoop (q ++ "( ") a l "AND" 0 with ⟨L, A, E⟩
    rw [hL] at hp; simp only at hp
    refine ⟨p, ?_⟩
    simp only [addFilterExpressionToQuery, hL]
    cases E <;> simpa using hp
  | hor l ih =>
    intro q a
    obtain ⟨p, hp⟩ := compoundLoop_args_extend l ih (q ++ "( ") a "OR" 0
    rcases hL : compoundLoop (q ++ "( ") a l "OR" 0 with ⟨L, A, E⟩
    rw [hL] at hp; simp only at hp
    refine ⟨p, ?_⟩
    simp only [addFilterExpressionToQuery, hL]
    cases E <;> simpa using hp
  | heq fields v =>
    intro q a
    simp only [addFilterExpressionToQuery]
    split_ifs
    · exact ⟨[v], rfl⟩
    · exact ⟨[v], rfl⟩
    · exact ⟨[v], rfl⟩
    · exact ⟨[], by simp⟩
  | hother t => intro q a; exact ⟨[], by simp [addFilterExpressionToQuery]⟩

/-- The error of the child loop is the first error triggered in a
depth-first traversal of the children. -/
theorem compoundLoop_error (l : List FilterExpression)
    (ih : ∀ e ∈ l, ∀ q a, (addFilterExpressionToQuery q a e).2.2 = firstNodeError e) :
    ∀ q a op i, (compoundLoop q a l op i).2.2 = firstNodeErrorList l := by
  induction l with
  | nil => intro q a op i; simp [compoundLoop, firstNodeErrorList, preorderNodesList]
  | cons e rest IH =>
    intro q a op i
    rcases h1 : addFilterExpressionToQuery (if i > 0 then q ++ " " ++ op ++ " " else q) a e
      with ⟨f1, a1, err1⟩
    have he := ih e (List.mem_cons_self e rest) (if i > 0 then q ++ " " ++ op ++ " " else q) a
    rw [h1] at he; simp only at he
    have hsplit : firstNodeErrorList (e :: rest) =
        ((preorderNodes e).filterMap nodeError ++
          (preorderNodesList rest).filterMap nodeError).head? := by
      simp [firstNodeErrorList, preorderNodesList, List.filterMap_append]
    cases err1 with
    | some err =>
      rcases List.head?_eq_some_iff.1 (show ((preorderNodes e).filterMap nodeError).head? = some err
        by simpa [firstNodeError] using he.symm) with ⟨t, ht⟩
      simp only [compoundLoop, h1, hsplit, ht]
      rfl
    | none =>
      have hnil : (preorderNodes e).filterMap nodeError = [] :=
        List.head?_eq_none_iff.1 (by simpa [firstNodeError] using he.symm)
      simp only [compoundLoop, h1, hsplit, hnil, List.nil_append]
      exact IH (fun x hx => ih x (List.mem_cons_of_mem e hx)) f1 a1 op (i + 1)

/-- The error of the compiler on a tree is the first error triggered in a
depth-first (pre-order) traversal of the tree. -/
theorem addFilter_error : ∀ (e : FilterExpression) (q : String) (a : List String),
    (addFilterExpressionToQuery q a e).2.2 = firstNodeError e := by
  intro e
  induction e using FilterExpression.recMem with
  | hand l ih =>
    intro q a
    have hL := compoundLoop_error l ih (q ++ "( ") a "AND" 0
    rcases h : compoundLoop (q ++ "( ") a l "AND" 0 with ⟨L, A, E⟩
    rw [h] at hL; simp only at hL
    have hfe : firstNodeError (.and l) = firstNodeErrorList l := by
      simp [firstNodeError, firstNodeErrorList, preorderNodes, nodeError]
    simp only [addFilterExpressionToQuery, h, hfe]
    cases E <;> simpa using hL
  | hor l ih =>
    intro q a
    have hL := compoundLoop_error l ih (q ++ "( ") a "OR" 0
    rcases h : compoundLoop (q ++ "( ") a l "OR" 0 with ⟨L, A, E⟩
    rw [h] at hL; simp only at hL
    have hfe : firstNodeError (.or l) = firstNodeErrorList l := by
      simp [firstNodeError, firstNodeErrorList, preorderNodes, nodeError]
    simp only [addFilterExpressionToQuery, h, hfe]
    cases E <;> simpa using hL
  | heq fields v =>
    intro q a
    simp only [addFilterExpressionToQuery, firstNodeError, preorderNodes]
    split_ifs <;> simp_all [List.filterMap_cons, nodeError]
  | hother t =>
    intro q a
    simp [addFilterExpressionToQuery, firstNodeError, preorderNodes, nodeError,
      List.filterMap_cons]

/-- On success the child loop appends exactly the pre-order equals-node
values of the children to the parameter list. -/
theorem compoundLoop_args_success (l : List FilterExpression)
    (ih : ∀ e ∈ l, ∀ q a, (addFilterExpressionToQuery q a e).2.2 = none →
      (addFilterExpressionToQuery q a e).2.1 = a ++ preorderValues e) :
    ∀ q a op i, (compoundLoop q a l op i).2.2 = none →
      (compoundLoop q a l op i).2.1 = a ++ preorderValuesList l := by
  induction l with
  | nil => intro q a op i _; simp [compoundLoop, preorderValuesList]
  | cons e rest IH =>
    intro q a op i hok
    rcases h1 : addFilterExpressionToQuery (if i > 0 then q ++ " " ++ op ++ " " else q) a e
      with ⟨f1, a1, err1⟩
    cases err1 with
    | some err =>
      simp only [compoundLoop, h1] at hok
      exact Option.noConfusion hok
    | none =>
      have he := ih e (List.mem_cons_self e rest)
        (if i > 0 then q ++ " " ++ op ++ " " else q) a (by rw [h1])
      rw [h1] at he; simp only at he
      simp only [compoundLoop, h1] at hok ⊢
      rw [IH (fun x hx => ih x (List.mem_cons_of_mem e hx)) f1 a1 op (i + 1) hok, he,
        preorderValuesList, List.append_assoc]

/-- On success the compiler appends exactly the pre-order equals-node values
of the tree to the parameter list. -/
theorem addFilter_args_success :
    ∀ (e : FilterExpression) (q : String) (a : List String),
      (addFilterExpressionToQuery q a e).2.2 = none →
      (addFilterExpressionToQuery q a e).2.1 = a ++ preorderValues e := by
  intro e
  induction e using FilterExpression.recMem with
  | hand l ih =>
    intro q a hok
    rcases h : compoundLoop (q ++ "( ") a l "AND" 0 with ⟨L, A, E⟩
    have hL := compoundLoop_args_success l ih (q ++ "( ") a "AND" 0
    rw [h] at hL; simp only at hL
    simp only [addFilterExpressionToQuery, h] at hok ⊢
    cases E with
    | some err => simp at hok
    | none => simpa [preorderValues] using hL rfl
  | hor l ih =>
    intro q a hok
    rcases h : compoundLoop (q ++ "( ") a l "OR" 0 with ⟨L, A, E⟩
    have hL := compoundLoop_args_success l ih (q ++ "( ") a "OR" 0
    rw [h] at hL; simp only at hL
    simp only [addFilterExpressionToQuery, h] at hok ⊢
    cases E with
    | some err => simp at hok
    | none => simpa [preorderValues] using hL rfl
  | heq fields v =>
    intro q a hok
    simp only [addFilterExpressionToQuery] at hok ⊢
    split_ifs at hok ⊢ <;> simp_all [preorderValues]
  | hother t =>
    intro q a hok
    simp [addFilterExpressionToQuery] at hok

/-- A character list that is either empty or does not start with a decimal
digit; the shape required of the text following a placeholder for the
scanner to close the digit run there. -/
def NonDigitHead : List Char → Prop
  | [] => True
  | c :: _ => c.isDigit = false

/-- Values below ten print as a single digit character with the expected
numeric value, and no digit character is the dollar sign. -/
theorem digitChar_facts (d : Nat) (h : d < 10) :
    (Nat.digitChar d).isDigit = true ∧ digitVal (Nat.digitChar d) = d ∧
      Nat.digitChar d ≠ '$' := by
  interval_cases d <;> exact ⟨by decide, by decide, by decide⟩

/-- Reading a digit list after an accumulator step. -/
theorem parseAccum_cons (m : Nat) (c : Char) (ds : List Char) :
    parseAccum m (c :: ds) = parseAccum (10 * m + digitVal c) ds := rfl

/-- Reading a digit list extended by one final digit. -/
theorem parseNat_append_singleton (x : List Char) (c : Char) :
    parseNat (x ++ [c]) = 10 * parseNat x + digitVal c := by
  simp [parseNat, parseAccum, List.foldl_append]

/-- The fuelled digit printer, run with sufficient fuel, produces a
nonempty list of decimal-digit characters (none of them a dollar sign)
that reads back to the printed number. -/
theorem decimalDigitsAux_facts :
    ∀ fuel n : Nat, n < fuel →
      (∀ c ∈ decimalDigitsAux fuel n, c.isDigit = true ∧ c ≠ '$') ∧
      decimalDigitsAux fuel n ≠ [] ∧
      parseNat (decimalDigitsAux fuel n) = n := by
  intro fuel
  induction fuel with
  | zero => intro n h; omega
  | succ fuel IH =>
    intro n h
    by_cases h10 : n < 10
    · obtain ⟨hd, hv, hne⟩ := digitChar_facts n h10
      refine ⟨?_, by simp [decimalDigitsAux, h10], ?_⟩
      · intro c hc
        simp only [decimalDigitsAux, if_pos h10, List.mem_singleton] at hc
        exact hc ▸ ⟨hd, hne⟩
      · simp only [decimalDigitsAux, if_pos h10]
        show parseNat [Nat.digitChar n] = n
        simp [parseNat, parseAccum, hv]
    · have hdiv : n / 10 < fuel :=
        Nat.lt_of_lt_of_le (Nat.div_lt_self (by omega) (by omega)) (by omega)
      obtain ⟨hdig, hne, hparse⟩ := IH (n / 10) hdiv
      obtain ⟨hd, hv, hds⟩ := digitChar_facts (n % 10) (Nat.mod_lt n (by omega))
      refine ⟨?_, by simp [decimalDigitsAux, h10], ?_⟩
      · intro c hc
        simp only [decimalDigitsAux, if_neg h10, List.mem_append, List.mem_singleton] at hc
        rcases hc with hc | hc
        · exact hdig c hc
        · exact hc ▸ ⟨hd, hds⟩
      · simp only [decimalDigitsAux, if_neg h10]
        rw [parseNat_append_singleton, hparse, hv]
        omega

/-- The decimal digits of a number: nonempty, all digits, no dollar sign,
and they read back to the number. -/
theorem decimalDigits_facts (n : Nat) :
    (∀ c ∈ decimalDigits n, c.isDigit = true ∧ c ≠ '$') ∧
      decimalDigits n ≠ [] ∧ parseNat (decimalDigits n) = n :=
  decimalDigitsAux_facts (n + 1) n (Nat.lt_succ_self n)

/-- Splitting the scanner at a boundary whose right side does not start
with a digit: the scan of the concatenation is the scan of the left part
followed by a fresh scan of the right part. -/
theorem scanAux_append :
    ∀ (a : List Char) (st : ScanState) (b : List Char), NonDigitHead b →
      scanAux st (a ++ b) = scanAux st a ++ scanAux .outside b := by
  intro a
  induction a with
  | nil =>
    intro st b hb
    cases st with
    | outside => simp [scanAux]
    | afterDollar =>
      cases b with
      | nil => simp [scanAux]
      | cons c cs =>
        have hc : c.isDigit = false := hb
        simp only [List.nil_append, scanAux, hc]
        split_ifs <;> simp_all [scanAux]
    | inNumber n =>
      cases b with
      | nil => simp [scanAux]
      | cons c cs =>
        have hc : c.isDigit = false := hb
        simp only [List.nil_append, scanAux, hc]
        split_ifs <;> simp_all [scanAux]
  | cons c a' IH =>
    intro st b hb
    cases st with
    | outside =>
      simp only [List.cons_append, scanAux]
      split_ifs <;> exact IH _ b hb
    | afterDollar =>
      simp only [List.cons_append, scanAux]
      split_ifs <;> exact IH _ b hb
    | inNumber n =>
      simp only [List.cons_append, scanAux]
      split_ifs <;> simp [IH _ b hb]

/-- Text without a dollar sign contributes nothing to the scan and keeps
the scanner outside a placeholder. -/
theorem scanAux_no_dollar :
    ∀ (a b : List Char), (∀ c ∈ a, c ≠ '$') →
      scanAux .outside (a ++ b) = scanAux .outside b := by
  intro a
  induction a with
  | nil => intro b _; rfl
  | cons c a' IH =>
    intro b h
    have hc : ¬c = '$' := h c (List.mem_cons_self c a')
    simp only [List.cons_append, scanAux, if_neg hc]
    exact IH b fun x hx => h x (List.mem_cons_of_mem c hx)

/-- Scanning a digit run from inside a number accumulates its decimal
value and closes the run at the first non-digit. -/
theorem scanAux_inNumber_digits :
    ∀ (ds : List Char) (m : Nat) (b : List Char),
      (∀ c ∈ ds, c.isDigit = true) → NonDigitHead b →
      scanAux (.inNumber m) (ds ++ b) = parseAccum m ds :: scanAux .outside b := by
  intro ds
  induction ds with
  | nil =>
    intro m b _ hb
    have := scanAux_append [] (.inNumber m) b hb
    simpa [scanAux] using this
  | cons d ds' IH =>
    intro m b hds hb
    have hd : d.isDigit = true := hds d (List.mem_cons_self d ds')
    simp only [List.cons_append, scanAux, hd, if_pos, parseAccum_cons]
    exact IH (10 * m + digitVal d) b (fun c hc => hds c (List.mem_cons_of_mem d hc)) hb

/-- Scanning a nonempty digit run right after a dollar sign yields its
decimal value. -/
theorem scanAux_afterDollar_digits (ds : List Char) (b : List Char)
    (hne : ds ≠ []) (hds : ∀ c ∈ ds, c.isDigit = true) (hb : NonDigitHead b) :
    scanAux .afterDollar (ds ++ b) = parseNat ds :: scanAux .outside b := by
  cases ds with
  | nil => exact absurd rfl hne
  | cons d ds' =>
    have hd : d.isDigit = true := hds d (List.mem_cons_self d ds')
    simp only [List.cons_append, scanAux, hd, if_pos, List.append_eq]
    rw [scanAux_inNumber_digits ds' (digitVal d) b
      (fun c hc => hds c (List.mem_cons_of_mem d hc)) hb]
    simp [parseNat, parseAccum_cons]

/-- Scanning a leaf fragment (dollar-free prefix followed by a printed
placeholder) followed by arbitrary non-digit-headed text: the placeholder
number is extracted. -/
theorem scanAux_leaf (X : String) (n : Nat) (b : List Char)
    (hX : ∀ c ∈ X.data, c ≠ '$') (hb : NonDigitHead b) :
    scanAux .outside ((X ++ sprintfDollar n).data ++ b) =
      n :: scanAux .outside b := by
  obtain ⟨hdig, hne, hparse⟩ := decimalDigits_facts n
  have hdata : (X ++ sprintfDollar n).data = X.data ++ '$' :: decimalDigits n := by
    show X.data ++ ('$' :: decimalDigits n) = _
    rfl
  rw [hdata, List.append_assoc, scanAux_no_dollar X.data _ hX]
  show scanAux .afterDollar (decimalDigits n ++ b) = _
  rw [scanAux_afterDollar_digits (decimalDigits n) b hne (fun c hc => (hdig c hc).1) hb, hparse]

instance (l : List Char) : Decidable (NonDigitHead l) :=
  match l with
  | [] => isTrue trivial
  | c :: _ => inferInstanceAs (Decidable (c.isDigit = false))

/-- The data of the empty string. -/
theorem emptyString_data : ("" : String).data = [] := rfl

/-- A non-digit-headed prefix keeps the concatenation non-digit-headed. -/
theorem NonDigitHead_append_left (x z : List Char)
    (hx : NonDigitHead x) (hne : x ≠ []) : NonDigitHead (x ++ z) := by
  cases x with
  | nil => exact absurd rfl hne
  | cons c cs => exact hx

/-- Concatenating two non-digit-headed lists is non-digit-headed. -/
theorem NonDigitHead_append (x z : List Char)
    (hx : NonDigitHead x) (hz : NonDigitHead z) : NonDigitHead (x ++ z) := by
  cases x with
  | nil => exact hz
  | cons c cs => exact hx

/-- Two consecutive ranges merge. -/
theorem range'_merge (s m n : Nat) :
    List.range' s m ++ List.range' (s + m) n = List.range' s (m + n) := by
  have h := List.range'_append s m n 1
  simp only [one_mul] at h
  rw [Nat.add_comm n m] at h
  exact h

/-- No character of the separator fragment is a dollar sign, provided the
operator keyword itself contains none. -/
theorem sep_no_dollar (op : String) (hop : ∀ c ∈ op.data, c ≠ '$') :
    ∀ c ∈ ("" ++ " " ++ op ++ " " : String).data, c ≠ '$' := by
  intro c hc
  have hd : ("" ++ " " ++ op ++ " " : String).data = [' '] ++ op.data ++ [' '] := rfl
  rw [hd] at hc
  simp only [List.mem_append, List.mem_singleton] at hc
  rcases hc with (hc | hc) | hc
  · exact hc ▸ by decide
  · exact hop c hc
  · exact hc ▸ by decide

/-- The separator fragment starts with a space. -/
theorem sep_data (op : String) :
    ("" ++ " " ++ op ++ " " : String).data = ' ' :: (op.data ++ [' ']) := rfl

/-- Scan-level specification of a successfully compiled fragment: scanning
the fragment followed by any non-digit-headed continuation yields the
contiguous block of placeholder indices continuing from the incoming
parameter count, followed by the scan of the continuation; moreover the
fragment is nonempty and does not start with a digit. -/
def ScanFragP (e : FilterExpression) : Prop :=
  ∀ (a : List String) (b : List Char),
    (addFilterExpressionToQuery "" a e).2.2 = none → NonDigitHead b →
    scanAux .outside ((addFilterExpressionToQuery "" a e).1.data ++ b) =
      List.range' (a.length + 1) (preorderValues e).length ++ scanAux .outside b
    ∧ NonDigitHead (addFilterExpressionToQuery "" a e).1.data
    ∧ (addFilterExpressionToQuery "" a e).1.data ≠ []

/-- Scan-level specification for the child loop, assuming it for every
child: the loop fragment scans to the contiguous placeholder block of all
children and never starts with a digit. -/
theorem compoundLoop_scan (l : List FilterExpression) (ih : ∀ e ∈ l, ScanFragP e)
    (op : String) (hop : ∀ c ∈ op.data, c ≠ '$') :
    ∀ (a : List String) (i : Nat) (b : List Char),
      (compoundLoop "" a l op i).2.2 = none → NonDigitHead b →
      scanAux .outside ((compoundLoop "" a l op i).1.data ++ b) =
        List.range' (a.length + 1) (preorderValuesList l).length ++ scanAux .outside b
      ∧ NonDigitHead (compoundLoop "" a l op i).1.data := by
  induction l with
  | nil =>
    intro a i b _ hb
    refine ⟨?_, ?_⟩
    · simp [compoundLoop, preorderValuesList, emptyString_data]
    · exact trivial
  | cons e rest IH =>
    intro a i b hok hb
    rcases h0 : addFilterExpressionToQuery "" a e with ⟨f0, a0, e0⟩
    have h1 : addFilterExpressionToQuery (if i > 0 then "" ++ " " ++ op ++ " " else "") a e =
        ((if i > 0 then "" ++ " " ++ op ++ " " else "") ++ f0, a0, e0) := by
      rw [addFilter_rebase e, h0]
    cases e0 with
    | some err =>
      simp only [compoundLoop, h1] at hok
      exact Option.noConfusion hok
    | none =>
      rcases hL : compoundLoop "" a0 rest op (i + 1) with ⟨L1, A1, E1⟩
      have h2 : compoundLoop
          ((if i > 0 then "" ++ " " ++ op ++ " " else "") ++ f0) a0 rest op (i + 1) =
          ((if i > 0 then "" ++ " " ++ op ++ " " else "") ++ f0 ++ L1, A1, E1) := by
        rw [compoundLoop_rebase rest (fun x _ => addFilter_rebase x), hL]
      simp only [compoundLoop, h1, h2] at hok ⊢
      have hsucc0 : (addFilterExpressionToQuery "" a e).2.2 = none := by rw [h0]
      have hsuccL : (compoundLoop "" a0 rest op (i + 1)).2.2 = none := by
        rw [hL]; simpa using hok
      have ihl := IH (fun x hx => ih x (List.mem_cons_of_mem e hx)) a0 (i + 1) b hsuccL hb
      rw [hL] at ihl
      have hbL : NonDigitHead (L1.data ++ b) := NonDigitHead_append _ _ ihl.2 hb
      have ihe := ih e (List.mem_cons_self e rest) a (L1.data ++ b) hsucc0 hbL
      rw [h0] at ihe
      have ha0 : a0 = a ++ preorderValues e := by
        have h := addFilter_args_success e "" a hsucc0
        rw [h0] at h
        exact h
      have hpv : (preorderValuesList (e :: rest)).length =
          (preorderValues e).length + (preorderValuesList rest).length := by
        simp [preorderValuesList]
      have hstart : a0.length + 1 = (a.length + 1) + (preorderValues e).length := by
        rw [ha0]; simp; omega
      by_cases hi : i > 0
      · refine ⟨?_, ?_⟩
        · rw [if_pos hi]
          have hdata : ((("" ++ " " ++ op ++ " ") ++ f0) ++ L1).data ++ b =
              ("" ++ " " ++ op ++ " " : String).data ++ (f0.data ++ (L1.data ++ b)) := by
            simp [String.data_append, List.append_assoc]
          rw [hdata, scanAux_no_dollar _ _ (sep_no_dollar op hop), ihe.1, ihl.1,
            ← List.append_assoc, hstart, range'_merge, hpv]
        · rw [if_pos hi]
          have hdata : ((("" ++ " " ++ op ++ " ") ++ f0) ++ L1).data =
              ("" ++ " " ++ op ++ " " : String).data ++ (f0.data ++ L1.data) := by
            simp [String.data_append, List.append_assoc]
          rw [hdata]
          refine NonDigitHead_append_left _ _ ?_ ?_
          · rw [sep_data]
            exact (by decide : (' ').isDigit = false)
          · rw [sep_data]; simp
      · refine ⟨?_, ?_⟩
        · rw [if_neg hi]
          have hdata : (("" ++ f0) ++ L1).data ++ b = f0.data ++ (L1.data ++ b) := by
            simp [String.data_append, emptyString_data, List.append_assoc]
          rw [hdata, ihe.1, ihl.1, ← List.append_assoc, hstart, range'_merge, hpv]
        · rw [if_neg hi]
          have hdata : (("" ++ f0) ++ L1).data = f0.data ++ L1.data := by
            simp [String.data_append, emptyString_data]
          rw [hdata]
          exact NonDigitHead_append_left _ _ ihe.2.1 ihe.2.2

/-- Every tree satisfies the scan-level fragment specification: a
successfully compiled fragment carries exactly the contiguous block of
placeholder indices continuing from the incoming parameter count. -/
theorem addFilter_scan : ∀ e : FilterExpression, ScanFragP e := by
  intro e
  induction e using FilterExpression.recMem with
  | hand l ih =>
    intro a b hok hb
    rcases hL0 : compoundLoop "" a l "AND" 0 with ⟨L0, A0, E0⟩
    have h2 : compoundLoop ("" ++ "( ") a l "AND" 0 = ("" ++ "( " ++ L0, A0, E0) := by
      rw [compoundLoop_rebase l (fun x _ => addFilter_rebase x), hL0]
    cases E0 with
    | some err =>
      simp only [addFilterExpressionToQuery, h2] at hok
      simp at hok
    | none =>
      have hfrag : addFilterExpressionToQuery "" a (.and l) =
          ("" ++ "( " ++ L0 ++ " )", A0, none) := by
        simp only [addFilterExpressionToQuery, h2]
      simp only [hfrag]
      have hsuccL : (compoundLoop "" a l "AND" 0).2.2 = none := by rw [hL0]
      have ihl := compoundLoop_scan l ih "AND" (by decide) a 0 (String.data " )" ++ b)
        hsuccL (NonDigitHead_append_left _ _ (by decide) (by decide))
      rw [hL0] at ihl
      have hdata : ("" ++ "( " ++ L0 ++ " )" : String).data ++ b =
          String.data "( " ++ (L0.data ++ (String.data " )" ++ b)) := by
        simp [String.data_append, emptyString_data, List.append_assoc]
      have hdata2 : ("" ++ "( " ++ L0 ++ " )" : String).data =
          String.data "( " ++ (L0.data ++ String.data " )") := by
        simp [String.data_append, emptyString_data, List.append_assoc]
      refine ⟨?_, ?_, ?_⟩
      · rw [hdata, scanAux_no_dollar _ _ (by decide), ihl.1,
          scanAux_no_dollar (String.data " )") b (by decide)]
        rfl
      · rw [hdata2]
        exact NonDigitHead_append_left _ _ (by decide) (by decide)
      · rw [hdata2]
        exact List.append_ne_nil_of_left_ne_nil (by decide) _
  | hor l ih =>
    intro a b hok hb
    rcases hL0 : compoundLoop "" a l "OR" 0 with ⟨L0, A0, E0⟩
    have h2 : compoundLoop ("" ++ "( ") a l "OR" 0 = ("" ++ "( " ++ L0, A0, E0) := by
      rw [compoundLoop_rebase l (fun x _ => addFilter_rebase x), hL0]
    cases E0 with
    | some err =>
      simp only [addFilterExpressionToQuery, h2] at hok
      simp at hok
    | none =>
      have hfrag : addFilterExpressionToQuery "" a (.or l) =
          ("" ++ "( " ++ L0 ++ " )", A0, none) := by
        simp only [addFilterExpressionToQuery, h2]
      simp only [hfrag]
      have hsuccL : (compoundLoop "" a l "OR" 0).2.2 = none := by rw [hL0]
      have ihl := compoundLoop_scan l ih "OR" (by decide) a 0 (String.data " )" ++ b)
        hsuccL (NonDigitHead_append_left _ _ (by decide) (by decide))
      rw [hL0] at ihl
      have hdata : ("" ++ "( " ++ L0 ++ " )" : String).data ++ b =
          String.data "( " ++ (L0.data ++ (String.data " )" ++ b)) := by
        simp [String.data_append, emptyString_data, List.append_assoc]
      have hdata2 : ("" ++ "( " ++ L0 ++ " )" : String).data =
          String.data "( " ++ (L0.data ++ String.data " )") := by
        simp [String.data_append, emptyString_data, List.append_assoc]
      refine ⟨?_, ?_, ?_⟩
      · rw [hdata, scanAux_no_dollar _ _ (by decide), ihl.1,
          scanAux_no_dollar (String.data " )") b (by decide)]
        rfl
      · rw [hdata2]
        exact NonDigitHead_append_left _ _ (by decide) (by decide)
      · rw [hdata2]
        exact List.append_ne_nil_of_left_ne_nil (by decide) _
  | heq fields v =>
    intro a b hok hb
    by_cases hk1 : stringsJoin "." fields = "type"
    · have hfrag : addFilterExpressionToQuery "" a (.equals fields v) =
          ("" ++ schemaName ++ "." ++ recordsTableName ++ ".type = " ++
            sprintfDollar (a.length + 1), a ++ [v], none) := by
        simp [addFilterExpressionToQuery, hk1]
      simp only [hfrag]
      refine ⟨?_, ?_, ?_⟩
      · rw [scanAux_leaf _ _ b (by decide) hb]
        simp [preorderValues, List.range'_one]
      · exact NonDigitHead_append_left _ _ (by decide) (by decide)
      · exact List.append_ne_nil_of_left_ne_nil (by decide) _
    · by_cases hk2 : stringsJoin "." fields = "id"
      · have hfrag : addFilterExpressionToQuery "" a (.equals fields v) =
            ("" ++ schemaName ++ "." ++ recordsTableName ++ ".id = " ++
              sprintfDollar (a.length + 1), a ++ [v], none) := by
          simp [addFilterExpressionToQuery, hk1, hk2]
        simp only [hfrag]
        refine ⟨?_, ?_, ?_⟩
        · rw [scanAux_leaf _ _ b (by decide) hb]
          simp [preorderValues, List.range'_one]
        · exact NonDigitHead_append_left _ _ (by decide) (by decide)
        · exact List.append_ne_nil_of_left_ne_nil (by decide) _
      · by_cases hk3 : stringsJoin "." fields = "$index"
        · have hfrag : addFilterExpressionToQuery "" a (.equals fields v) =
              ("" ++ schemaName ++ "." ++ recordsTableName ++ ".index_cidr >>= " ++
                sprintfDollar (a.length + 1), a ++ [v], none) := by
            simp [addFilterExpressionToQuery, hk1, hk2, hk3]
          simp only [hfrag]
          refine ⟨?_, ?_, ?_⟩
          · rw [scanAux_leaf _ _ b (by decide) hb]
            simp [preorderValues, List.range'_one]
          · exact NonDigitHead_append_left _ _ (by decide) (by decide)
          · exact List.append_ne_nil_of_left_ne_nil (by decide) _
        · have hfrag : addFilterExpressionToQuery "" a (.equals fields v) =
              ("", a, some (CompileError.unsupportedEqualsFilter fields)) := by
            simp [addFilterExpressionToQuery, hk1, hk2, hk3]
          rw [hfrag] at hok
          simp at hok
  | hother t =>
    intro a b hok hb
    simp [addFilterExpressionToQuery] at hok

/-- Concatenation of a list of strings. -/
def joinAll : List String → String
  | [] => ""
  | s :: rest => s ++ joinAll rest

/-- Joining with a separator is the head followed by the separator-prefixed
tail pieces. -/
theorem stringsJoin_cons_joinAll (sep x : String) (xs : List String) :
    stringsJoin sep (x :: xs) = x ++ joinAll (List.map (fun f => sep ++ f) xs) := by
  induction xs generalizing x with
  | nil => simp [stringsJoin, joinAll]
  | cons y ys IH =>
    simp only [stringsJoin, List.map_cons, joinAll, IH y]
    simp [String.append_assoc]

/-- The fragments of the children of a compound node: the head fragment is
compiled at the incoming parameter state, the rest at the advanced one. -/
theorem childFragments_cons (a : List String) (e : FilterExpression)
    (rest : List FilterExpression) (f0 : String) (a0 : List String)
    (e0 : Option CompileError) (h : addFilterExpressionToQuery "" a e = (f0, a0, e0)) :
    childFragments a (e :: rest) = f0 :: childFragments a0 rest := by
  simp [childFragments, h]

/-- Shape of the successful loop fragment: children fragments joined by the
operator keyword surrounded by single spaces (all of them preceded by the
separator when the loop starts at a positive index). -/
theorem compoundLoop_shape (l : List FilterExpression) :
    ∀ (a : List String) (op : String) (i : Nat),
      (compoundLoop "" a l op i).2.2 = none →
      (compoundLoop "" a l op i).1 =
        (if i > 0 then joinAll (List.map (fun f => " " ++ op ++ " " ++ f) (childFragments a l))
         else stringsJoin (" " ++ op ++ " ") (childFragments a l)) := by
  induction l with
  | nil =>
    intro a op i _
    simp [compoundLoop, childFragments, joinAll, stringsJoin]
  | cons e rest IH =>
    intro a op i hok
    rcases h0 : addFilterExpressionToQuery "" a e with ⟨f0, a0, e0⟩
    have h1 : addFilterExpressionToQuery (if i > 0 then "" ++ " " ++ op ++ " " else "") a e =
        ((if i > 0 then "" ++ " " ++ op ++ " " else "") ++ f0, a0, e0) := by
      rw [addFilter_rebase e, h0]
    cases e0 with
    | some err =>
      simp only [compoundLoop, h1] at hok
      exact Option.noConfusion hok
    | none =>
      rcases hL : compoundLoop "" a0 rest op (i + 1) with ⟨L1, A1, E1⟩
      have h2 : compoundLoop
          ((if i > 0 then "" ++ " " ++ op ++ " " else "") ++ f0) a0 rest op (i + 1) =
          ((if i > 0 then "" ++ " " ++ op ++ " " else "") ++ f0 ++ L1, A1, E1) := by
        rw [compoundLoop_rebase rest (fun x _ => addFilter_rebase x), hL]
      simp only [compoundLoop, h1, h2] at hok ⊢
      have hE1 : E1 = none := by simpa using hok
      subst hE1
      have hL1 := IH a0 op (i + 1) (by rw [hL])
      rw [hL] at hL1
      simp only [Nat.succ_pos, if_pos] at hL1
      rw [childFragments_cons a e rest f0 a0 none h0]
      by_cases hi : i > 0
      · rw [if_pos hi, if_pos hi]
        simp only [List.map_cons, joinAll]
        rw [hL1]
        simp [String.append_assoc]
      · rw [if_neg hi, if_neg hi]
        rw [stringsJoin_cons_joinAll, hL1]
        simp [String.append_assoc]

/-- Joining field-path segments with a dot yields a dotless nonempty key
exactly when the path is the corresponding singleton. -/
theorem stringsJoin_singleton_iff (k : String) (hk : '.' ∉ k.data) (hk2 : k ≠ "")
    (fields : List String) : stringsJoin "." fields = k ↔ fields = [k] := by
  constructor
  · intro h
    cases fields with
    | nil => exact absurd h.symm hk2
    | cons s rest =>
      cases rest with
      | nil => rw [show stringsJoin "." [s] = s from rfl] at h; rw [h]
      | cons b r =>
        have hmem : '.' ∈ (stringsJoin "." (s :: b :: r)).data := by
          rw [show stringsJoin "." (s :: b :: r) =
            s ++ "." ++ stringsJoin "." (b :: r) from rfl]
          rw [String.data_append, String.data_append]
          simp
        rw [h] at hmem
        exact absurd hmem hk
  · rintro rfl; rfl

/-- On a single equals node the first traversal error is that node's own
error. -/
theorem firstNodeError_equals (fields : List String) (v : String) :
    firstNodeError (.equals fields v) = nodeError (.equals fields v) := by
  cases hne : nodeError (.equals fields v) with
  | none => simp [firstNodeError, preorderNodes, List.filterMap_cons, hne]
  | some c => simp [firstNodeError, preorderNodes, List.filterMap_cons, hne]

/-- C1: on every successful compilation the same fragment is appended to
any incoming query, the parameter list is extended by a block `p` of
values, and the placeholder indices occurring in the fragment are exactly
the consecutive block `startParamIndex + 1 .. startParamIndex + p.length`
(where `startParamIndex` is the number of pre-existing parameters), with no
gaps or repeats; in particular the count of placeholders equals the count
of appended values and the first new index is one more than the number of
pre-existing parameters. -/
theorem c1_placeholder_block (a : List String) (e : FilterExpression)
    (q' : String) (a' : List String)
    (h : addFilterExpressionToQuery "" a e = (q', a', none)) :
    (∀ q, addFilterExpressionToQuery q a e = (q ++ q', a', none)) ∧
    ∃ p, a' = a ++ p ∧
      placeholderIndices q' = List.range' (a.length + 1) p.length ∧
      (placeholderIndices q').length = p.length := by
  have hok : (addFilterExpressionToQuery "" a e).2.2 = none := by rw [h]
  have hargs := addFilter_args_success e "" a hok
  rw [h] at hargs
  have hs := addFilter_scan e a [] hok trivial
  rw [h] at hs
  have hscan : placeholderIndices q' = List.range' (a.length + 1) (preorderValues e).length := by
    have h1 := hs.1
    rw [show scanAux .outside ([] : List Char) = ([] : List Nat) from rfl] at h1
    simp only [List.append_nil] at h1
    exact h1
  refine ⟨?_, preorderValues e, hargs, hscan, by rw [hscan]; simp⟩
  intro q
  rw [addFilter_rebase e q a, h]

/-- C1 witness: a concrete successful compilation with one pre-existing
parameter; the fragment holds exactly the placeholder block starting right
after it. -/
theorem c1_placeholder_block_witness :
    (∀ q, addFilterExpressionToQuery q ["p"]
        (.and [.equals ["type"] "x", .equals ["$index"] "y"]) =
      (q ++ "( pomerium.records.type = $2 AND pomerium.records.index_cidr >>= $3 )",
        ["p", "x", "y"], none)) ∧
    ∃ p, ["p", "x", "y"] = ["p"] ++ p ∧
      placeholderIndices
          "( pomerium.records.type = $2 AND pomerium.records.index_cidr >>= $3 )" =
        List.range' ((["p"] : List String).length + 1) p.length ∧
      (placeholderIndices
          "( pomerium.records.type = $2 AND pomerium.records.index_cidr >>= $3 )").length =
        p.length :=
  c1_placeholder_block ["p"] (.and [.equals ["type"] "x", .equals ["$index"] "y"]) _ _ rfl

/-- C2 counterexample: compilation of a compound whose second child is
unsupported returns an error, yet the caller-visible query text and
parameter list have changed (the opening parenthesis, the first child's
fragment, the separator, and the first child's value are all retained), so
the claim that they are unchanged on failure is false. -/
theorem c2_counterexample :
    addFilterExpressionToQuery "" [] (.and [.equals ["id"] "v", .other "T"]) =
      ("( pomerium.records.id = $1 AND ", ["v"],
        some (CompileError.unsupportedFilterExpression "T")) ∧
    ("( pomerium.records.id = $1 AND " : String) ≠ "" ∧
    (["v"] : List String) ≠ [] := by
  refine ⟨rfl, by decide, by decide⟩

/-- C2 amended: on failure the caller-visible state is not rolled back; the
guarantee that actually holds is append-only accumulation: the pre-call
query text and parameter list are prefixes of the post-call ones, so a
partial fragment is observable. -/
theorem c2_amended_error_state (q : String) (a : List String) (e : FilterExpression)
    (q' : String) (a' : List String) (err : CompileError)
    (h : addFilterExpressionToQuery q a e = (q', a', some err)) :
    ∃ f p, q' = q ++ f ∧ a' = a ++ p := by
  have hre := addFilter_rebase e q a
  rw [h] at hre
  obtain ⟨p, hp⟩ := addFilter_args_extend e q a
  rw [h] at hp
  exact ⟨(addFilterExpressionToQuery "" a e).1, p, congrArg Prod.fst hre, hp⟩

/-- C2 amended witness: the counterexample input, with nonempty initial
state. -/
theorem c2_amended_error_state_witness :
    ∃ f p, "q0( pomerium.records.id = $2 AND " = "q0" ++ f ∧
      ["z", "v"] = ["z"] ++ p :=
  c2_amended_error_state "q0" ["z"] (.and [.equals ["id"] "v", .other "T"]) _ _
    (CompileError.unsupportedFilterExpression "T") rfl

/-- The fragment of a supported leaf holds exactly one placeholder. -/
theorem placeholderIndices_leaf (X : String) (n : Nat) (hX : ∀ c ∈ X.data, c ≠ '$') :
    placeholderIndices (X ++ sprintfDollar n) = [n] := by
  have hs := scanAux_leaf X n [] hX trivial
  rw [show scanAux .outside ([] : List Char) = ([] : List Nat) from rfl] at hs
  simp only [List.append_nil] at hs
  exact hs

/-- C3: an equals node whose field path joins to the index key compiles to
the schema-and-table-qualified `index_cidr` column compared with the
network-containment operator `>>=` (not `=`), appends exactly one
placeholder (the next index), and appends the supplied value as the
corresponding parameter. -/
theorem c3_index_containment (q : String) (a : List String)
    (fields : List String) (v : String)
    (h : stringsJoin "." fields = "$index") :
    addFilterExpressionToQuery q a (.equals fields v) =
      (q ++ schemaName ++ "." ++ recordsTableName ++ ".index_cidr >>= " ++
        sprintfDollar (a.length + 1), a ++ [v], none) ∧
    placeholderIndices (schemaName ++ "." ++ recordsTableName ++ ".index_cidr >>= " ++
        sprintfDollar (a.length + 1)) = [a.length + 1] := by
  have h1 : stringsJoin "." fields ≠ "type" := by rw [h]; decide
  have h2 : stringsJoin "." fields ≠ "id" := by rw [h]; decide
  constructor
  · simp [addFilterExpressionToQuery, h1, h2, h]
  · exact placeholderIndices_leaf
      (schemaName ++ "." ++ recordsTableName ++ ".index_cidr >>= ") (a.length + 1)
      (by decide)

/-- C3 witness: the spec's third example. -/
theorem c3_index_containment_witness :
    (addFilterExpressionToQuery "" [] (.equals ["$index"] "10.0.0.1") =
      ("" ++ schemaName ++ "." ++ recordsTableName ++ ".index_cidr >>= " ++
        sprintfDollar (([] : List String).length + 1), [] ++ ["10.0.0.1"], none) ∧
    placeholderIndices (schemaName ++ "." ++ recordsTableName ++ ".index_cidr >>= " ++
        sprintfDollar (([] : List String).length + 1)) = [([] : List String).length + 1]) :=
  c3_index_containment "" [] ["$index"] "10.0.0.1" rfl

/-- C4 counterexample: a tree containing an equals node with an unsupported
field path, preceded in traversal order by an unsupported-variant node,
fails with the unsupported-expression error, not with the
unsupported-field error carrying the offending path; so the claim as
universally stated is false. -/
theorem c4_counterexample :
    hasUnsupportedEqualsField (.and [.other "T", .equals ["nope"] "1"]) = true ∧
    (addFilterExpressionToQuery "" [] (.and [.other "T", .equals ["nope"] "1"])).2.2 =
      some (CompileError.unsupportedFilterExpression "T") ∧
    (addFilterExpressionToQuery "" [] (.and [.other "T", .equals ["nope"] "1"])).2.2 ≠
      some (CompileError.unsupportedEqualsFilter ["nope"]) := by
  refine ⟨rfl, rfl, by decide⟩

/-- C4 amended: a tree containing an equals node with an unsupported field
path always fails; and whenever the first error triggered in the
depth-first traversal is an unsupported-field error, the compilation error
is exactly that error, carrying the offending path — regardless of where
the node sits in the tree. -/
theorem c4_amended_unsupported_field (q : String) (a : List String)
    (e : FilterExpression) (h : hasUnsupportedEqualsField e = true) :
    ((addFilterExpressionToQuery q a e).2.2).isSome = true ∧
    ∀ fields, firstNodeError e = some (CompileError.unsupportedEqualsFilter fields) →
      (addFilterExpressionToQuery q a e).2.2 =
        some (CompileError.unsupportedEqualsFilter fields) := by
  rw [addFilter_error e q a]
  constructor
  · obtain ⟨n, hn, hdet⟩ := List.any_eq_true.mp h
    have hne : ∃ c, nodeError n = some c := by
      cases hnd : nodeError n with
      | none => rw [hnd] at hdet; simp at hdet
      | some c => exact ⟨c, rfl⟩
    obtain ⟨c, hc⟩ := hne
    have hmem : c ∈ (preorderNodes e).filterMap nodeError :=
      List.mem_filterMap.mpr ⟨n, hn, hc⟩
    cases hfm : (preorderNodes e).filterMap nodeError with
    | nil => rw [hfm] at hmem; simp at hmem
    | cons x xs => simp [firstNodeError, hfm]
  · intro fields hf
    exact hf

/-- C4 amended witness: a nested unsupported field path alone in the tree
fails with the unsupported-field error carrying the path. -/
theorem c4_amended_unsupported_field_witness :
    ((addFilterExpressionToQuery "" [] (.and [.equals ["nope"] "1"])).2.2).isSome = true ∧
    ∀ fields, firstNodeError (.and [.equals ["nope"] "1"]) =
        some (CompileError.unsupportedEqualsFilter fields) →
      (addFilterExpressionToQuery "" [] (.and [.equals ["nope"] "1"])).2.2 =
        some (CompileError.unsupportedEqualsFilter fields) :=
  c4_amended_unsupported_field "" [] (.and [.equals ["nope"] "1"]) (by decide)

/-- C5 counterexample: a tree containing an unsupported-variant node,
preceded in traversal order by an equals node with an unsupported field
path, fails with the unsupported-field error, not with the
unsupported-expression error carrying the variant discriminant; so the
claim as universally stated is false. -/
theorem c5_counterexample :
    hasOtherNode (.and [.equals ["nope"] "1", .other "T"]) = true ∧
    (addFilterExpressionToQuery "" [] (.and [.equals ["nope"] "1", .other "T"])).2.2 =
      some (CompileError.unsupportedEqualsFilter ["nope"]) ∧
    (addFilterExpressionToQuery "" [] (.and [.equals ["nope"] "1", .other "T"])).2.2 ≠
      some (CompileError.unsupportedFilterExpression "T") := by
  refine ⟨rfl, rfl, by decide⟩

/-- C5 amended: a tree containing a node outside the three known variants
always fails; and whenever the first error triggered in the depth-first
traversal is an unsupported-expression error, the compilation error is
exactly that error, carrying the variant discriminant. -/
theorem c5_amended_unsupported_variant (q : String) (a : List String)
    (e : FilterExpression) (h : hasOtherNode e = true) :
    ((addFilterExpressionToQuery q a e).2.2).isSome = true ∧
    ∀ t, firstNodeError e = some (CompileError.unsupportedFilterExpression t) →
      (addFilterExpressionToQuery q a e).2.2 =
        some (CompileError.unsupportedFilterExpression t) := by
  rw [addFilter_error e q a]
  constructor
  · obtain ⟨n, hn, hdet⟩ := List.any_eq_true.mp h
    have hne : ∃ c, nodeError n = some c := by
      cases n with
      | other t => exact ⟨CompileError.unsupportedFilterExpression t, rfl⟩
      | and l => simp at hdet
      | or l => simp at hdet
      | equals f v => simp at hdet
    obtain ⟨c, hc⟩ := hne
    have hmem : c ∈ (preorderNodes e).filterMap nodeError :=
      List.mem_filterMap.mpr ⟨n, hn, hc⟩
    cases hfm : (preorderNodes e).filterMap nodeError with
    | nil => rw [hfm] at hmem; simp at hmem
    | cons x xs => simp [firstNodeError, hfm]
  · intro t hf
    exact hf

/-- C5 amended witness: an unsupported variant nested alone in a compound
fails with the unsupported-expression error carrying the discriminant. -/
theorem c5_amended_unsupported_variant_witness :
    ((addFilterExpressionToQuery "" [] (.or [.other "T"])).2.2).isSome = true ∧
    ∀ t, firstNodeError (.or [.other "T"]) =
        some (CompileError.unsupportedFilterExpression t) →
      (addFilterExpressionToQuery "" [] (.or [.other "T"])).2.2 =
        some (CompileError.unsupportedFilterExpression t) :=
  c5_amended_unsupported_variant "" [] (.or [.other "T"]) (by decide)

/-- C6: a successfully compiled compound emits an opening parenthesis, the
children's fragments strictly in input order joined by the operator keyword
surrounded by single spaces, and a closing parenthesis; in particular the
spec's second example compiles to exactly the expected text with the two
values in order. -/
theorem c6_compound_shape :
    (∀ (a : List String) (l : List FilterExpression) (q' : String) (a' : List String),
      addFilterExpressionToQuery "" a (.and l) = (q', a', none) →
        q' = "( " ++ stringsJoin " AND " (childFragments a l) ++ " )") ∧
    (∀ (a : List String) (l : List FilterExpression) (q' : String) (a' : List String),
      addFilterExpressionToQuery "" a (.or l) = (q', a', none) →
        q' = "( " ++ stringsJoin " OR " (childFragments a l) ++ " )") ∧
    addFilterExpressionToQuery "" [] (.and [.equals ["type"] "x", .equals ["id"] "y"]) =
      ("( " ++ schemaName ++ "." ++ recordsTableName ++ ".type = $1 AND " ++
        schemaName ++ "." ++ recordsTableName ++ ".id = $2 )", ["x", "y"], none) := by
  refine ⟨?_, ?_, rfl⟩
  · intro a l q' a' h
    rcases hL0 : compoundLoop "" a l "AND" 0 with ⟨L0, A0, E0⟩
    have h2 : compoundLoop ("" ++ "( ") a l "AND" 0 = ("" ++ "( " ++ L0, A0, E0) := by
      rw [compoundLoop_rebase l (fun x _ => addFilter_rebase x), hL0]
    cases E0 with
    | some err =>
      rw [show addFilterExpressionToQuery "" a (.and l) =
        ("" ++ "( " ++ L0, A0, some err) from by
          simp only [addFilterExpressionToQuery, h2]] at h
      exact Option.noConfusion (congrArg (fun x => x.2.2) h)
    | none =>
      rw [show addFilterExpressionToQuery "" a (.and l) =
        ("" ++ "( " ++ L0 ++ " )", A0, none) from by
          simp only [addFilterExpressionToQuery, h2]] at h
      have hq' : q' = "" ++ "( " ++ L0 ++ " )" := (congrArg (fun x => x.1) h).symm
      have hshape := compoundLoop_shape l a "AND" 0 (by rw [hL0])
      rw [hL0] at hshape
      simp only [show ¬(0 > 0) from by omega, if_neg, if_false] at hshape
      rw [hq', hshape]
      rfl
  · intro a l q' a' h
    rcases hL0 : compoundLoop "" a l "OR" 0 with ⟨L0, A0, E0⟩
    have h2 : compoundLoop ("" ++ "( ") a l "OR" 0 = ("" ++ "( " ++ L0, A0, E0) := by
      rw [compoundLoop_rebase l (fun x _ => addFilter_rebase x), hL0]
    cases E0 with
    | some err =>
      rw [show addFilterExpressionToQuery "" a (.or l) =
        ("" ++ "( " ++ L0, A0, some err) from by
          simp only [addFilterExpressionToQuery, h2]] at h
      exact Option.noConfusion (congrArg (fun x => x.2.2) h)
    | none =>
      rw [show addFilterExpressionToQuery "" a (.or l) =
        ("" ++ "( " ++ L0 ++ " )", A0, none) from by
          simp only [addFilterExpressionToQuery, h2]] at h
      have hq' : q' = "" ++ "( " ++ L0 ++ " )" := (congrArg (fun x => x.1) h).symm
      have hshape := compoundLoop_shape l a "OR" 0 (by rw [hL0])
      rw [hL0] at hshape
      simp only [show ¬(0 > 0) from by omega, if_neg, if_false] at hshape
      rw [hq', hshape]
      rfl

/-- C6 witness: the universal shape statement applied to the spec's second
example. -/
theorem c6_compound_shape_witness :
    "( pomerium.records.type = $1 AND pomerium.records.id = $2 )" =
      "( " ++ stringsJoin " AND "
        (childFragments [] [.equals ["type"] "x", .equals ["id"] "y"]) ++ " )" :=
  c6_compound_shape.1 [] [.equals ["type"] "x", .equals ["id"] "y"] _ ["x", "y"] rfl

/-- C7: on every successful compilation the parameter list is extended by
exactly the equals-node values of the tree in pre-order (depth-first,
left-to-right) traversal order. -/
theorem c7_preorder_parameter_order (q : String) (a : List String)
    (e : FilterExpression) (q' : String) (a' : List String)
    (h : addFilterExpressionToQuery q a e = (q', a', none)) :
    a' = a ++ preorderValues e := by
  have hok : (addFilterExpressionToQuery q a e).2.2 = none := by rw [h]
  have := addFilter_args_success e q a hok
  rw [h] at this
  exact this

/-- C7 witness: a nested tree whose values come out in pre-order. -/
theorem c7_preorder_parameter_order_witness :
    ["x", "y", "z"] = ([] : List String) ++ preorderValues
      (.or [.and [.equals ["id"] "x"], .equals ["type"] "y", .equals ["$index"] "z"]) :=
  c7_preorder_parameter_order "" []
    (.or [.and [.equals ["id"] "x"], .equals ["type"] "y", .equals ["$index"] "z"])
    _ _ rfl

/-- C8 counterexample: an empty compound compiles successfully but the
emitted fragment is an opening parenthesis, two spaces and a closing
parenthesis — not the single-space text claimed. -/
theorem c8_counterexample :
    addFilterExpressionToQuery "" [] (.and []) = ("(  )", [], none) ∧
    addFilterExpressionToQuery "" [] (.or []) = ("(  )", [], none) ∧
    ("(  )" : String) ≠ "( )" := by
  refine ⟨rfl, rfl, by decide⟩

/-- C8 amended: an empty `And`/`Or` compound succeeds, appends no
parameters, and emits exactly an opening parenthesis followed by two
spaces and a closing parenthesis (the space of the opening token plus the
space of the closing token), with no operator keyword. -/
theorem c8_amended_empty_compound (q : String) (a : List String) :
    addFilterExpressionToQuery q a (.and []) = (q ++ "(  )", a, none) ∧
    addFilterExpressionToQuery q a (.or []) = (q ++ "(  )", a, none) := by
  have hq : ∀ q0 : String, (q0 ++ "( ") ++ " )" = q0 ++ "(  )" := by
    intro q0
    rw [String.append_assoc]
    rfl
  constructor
  · simp only [addFilterExpressionToQuery, compoundLoop, hq q]
  · simp only [addFilterExpressionToQuery, compoundLoop, hq q]

/-- C9: an equals node compiles successfully exactly when its field path is
one of the singletons for the three supported keys: the empty path joins to
the empty string and any multi-segment path joins to a dotted key, neither
of which is a supported key. -/
theorem c9_equals_support_iff (q : String) (a : List String)
    (fields : List String) (v : String) :
    (addFilterExpressionToQuery q a (.equals fields v)).2.2 = none ↔
      fields = ["type"] ∨ fields = ["id"] ∨ fields = ["$index"] := by
  rw [addFilter_error, firstNodeError_equals]
  have h1 := stringsJoin_singleton_iff "type" (by decide) (by decide) fields
  have h2 := stringsJoin_singleton_iff "id" (by decide) (by decide) fields
  have h3 := stringsJoin_singleton_iff "$index" (by decide) (by decide) fields
  simp only [nodeError]
  split_ifs with hk1 hk2 hk3
  · exact iff_of_true rfl (Or.inl (h1.1 hk1))
  · exact iff_of_true rfl (Or.inr (Or.inl (h2.1 hk2)))
  · exact iff_of_true rfl (Or.inr (Or.inr (h3.1 hk3)))
  · refine iff_of_false (by simp) ?_
    rintro (rfl | rfl | rfl)
    · exact hk1 rfl
    · exact hk2 rfl
    · exact hk3 rfl

/-- C9 witness: both directions at concrete inputs — a supported singleton
succeeds, and a two-segment path that spells a supported key when joined
is still rejected. -/
theorem c9_equals_support_iff_witness :
    ((addFilterExpressionToQuery "" [] (.equals ["type"] "v")).2.2 = none) ∧
    ¬((addFilterExpressionToQuery "" [] (.equals ["", "type"] "v")).2.2 = none) :=
  ⟨(c9_equals_support_iff "" [] ["type"] "v").mpr (Or.inl rfl),
    fun h => by
      rcases (c9_equals_support_iff "" [] ["", "type"] "v").mp h with h' | h' | h' <;>
        exact absurd h' (by decide)⟩

/-- C10: every invocation only appends: the incoming query text and
parameter list are prefixes of the outgoing ones, whether or not an error
is returned; in particular, when a later child of a compound fails, the
unmatched opening parenthesis, the earlier siblings' fragments, the
separator, and the earlier siblings' parameters all remain in place. -/
theorem c10_append_only :
    (∀ (q : String) (a : List String) (e : FilterExpression),
      (∃ f, (addFilterExpressionToQuery q a e).1 = q ++ f) ∧
      (∃ p, (addFilterExpressionToQuery q a e).2.1 = a ++ p)) ∧
    addFilterExpressionToQuery "q0 " ["a0"] (.and [.equals ["id"] "v", .other "T"]) =
      ("q0 " ++ "( pomerium.records.id = $2 AND ", ["a0"] ++ ["v"],
        some (CompileError.unsupportedFilterExpression "T")) := by
  refine ⟨fun q a e => ⟨⟨(addFilterExpressionToQuery "" a e).1, ?_⟩,
    addFilter_args_extend e q a⟩, rfl⟩
  rw [addFilter_rebase e q a]
